import Mathlib

/-!
Verification development for the HackerNoon author-scraper engine
(`src/lib/scraper.js`).  The JavaScript code is shallowly embedded:

* JS `Set` objects become `List String` values manipulated by `setAdd`
  (insertion-ordered, duplicate-free by construction);
* JS `Map` objects become association lists manipulated by `mapGet` /
  `mapSet` (JS `Map.set` updates an existing key in place, preserving
  its position, and appends a fresh key at the end);
* the network (`fetchPage` + `__NEXT_DATA__` parsing, cheerio link
  scanning) is an explicit input to each operation: a `FetchOutcome`
  for article pages and an `Option SocialResult` for profile pages;
* JS string methods (`includes`, `replace`, `toLowerCase`,
  `startsWith`, `trim`) are re-implemented character by character on
  `List Char` so that every definition evaluates inside the kernel.
-/

namespace HN

/-! ## JS string primitives -/

/-- Does `p` occur as a leading block of `cs`?  (Helper for the JS
`includes` / `startsWith` embeddings.) -/
def charsLeadWith : List Char → List Char → Bool
  | [], _ => true
  | _ :: _, [] => false
  | p :: ps, c :: cs => p = c && charsLeadWith ps cs

/-- `String.prototype.includes` on character lists. -/
def charsIncl : List Char → List Char → Bool
  | [], pat => pat.isEmpty
  | hay@(_ :: rest), pat => charsLeadWith pat hay || charsIncl rest pat

/-- JS `s.includes(pat)`. -/
def strIncludes (s pat : String) : Bool :=
  charsIncl s.data pat.data

/-- JS `s.startsWith(p)`. -/
def strLeadsWith (s p : String) : Bool :=
  charsLeadWith p.data s.data

/-- JS `s.replace(pat, repl)` with a string pattern: replaces the first
occurrence only. -/
def charsReplaceFirst : List Char → List Char → List Char → List Char
  | [], pat, repl => if pat.isEmpty then repl else []
  | hay@(c :: rest), pat, repl =>
    if charsLeadWith pat hay then repl ++ hay.drop pat.length
    else c :: charsReplaceFirst rest pat repl

/-- JS `s.replace(pat, repl)` (first occurrence). -/
def replaceFirst (s pat repl : String) : String :=
  ⟨charsReplaceFirst s.data pat.data repl.data⟩

/-- JS `s.toLowerCase()` (ASCII, which covers the configured keyword
vocabulary). -/
def lowerStr (s : String) : String :=
  ⟨s.data.map Char.toLower⟩

/-- JS `arr.join(' ')`. -/
def joinSpace : List String → String
  | [] => ""
  | [x] => x
  | x :: xs => x ++ " " ++ joinSpace xs

/-- JS `\s` whitespace class (ASCII part). -/
def jsWs (c : Char) : Bool :=
  c = ' ' || c = '\t' || c = '\n' || c = '\r' || c = '\x0b' || c = '\x0c'

/-- JS `\w` word characters together with `-`, the class used by the
`@[\w-]+` handle-stripping regex in `cleanName`. -/
def isWordDash (c : Char) : Bool :=
  c.isAlphanum || c = '_' || c = '-'

/-- `raw.replace(/^by\s*/i, '')`: strip a leading `by` (any case) plus
the following whitespace run. -/
def stripLeadingBy (cs : List Char) : List Char :=
  match cs with
  | b :: y :: rest =>
    if (b = 'b' || b = 'B') && (y = 'y' || y = 'Y') then rest.dropWhile jsWs
    else cs
  | _ => cs

/-- Scanner for `raw.replace(/@[\w-]+/g, '')`: `skipping` records that
the scan is inside a matched `@[\w-]+` run. -/
def removeAtGo (skipping : Bool) : List Char → List Char
  | [] => []
  | c :: rest =>
    if skipping && isWordDash c then removeAtGo true rest
    else if c = '@' && (rest.head?.map isWordDash).getD false then
      removeAtGo true rest
    else c :: removeAtGo false rest

/-- `raw.replace(/@[\w-]+/g, '')`: delete every `@` followed by at least
one word/dash character, together with that run. -/
def removeAtHandles (cs : List Char) : List Char :=
  removeAtGo false cs

/-- Scanner for `raw.replace(/\s+/g, ' ')`: `prevWs` records that the
previous character belonged to a whitespace run already emitted as one
space. -/
def collapseWsGo (prevWs : Bool) : List Char → List Char
  | [] => []
  | c :: rest =>
    if jsWs c then
      if prevWs then collapseWsGo true rest
      else ' ' :: collapseWsGo true rest
    else c :: collapseWsGo false rest

/-- `raw.replace(/\s+/g, ' ')`: collapse each whitespace run to one
space. -/
def collapseWs (cs : List Char) : List Char :=
  collapseWsGo false cs

/-- JS `s.trim()`. -/
def trimChars (cs : List Char) : List Char :=
  ((cs.dropWhile jsWs).reverse.dropWhile jsWs).reverse

/-! ## Configuration constants (scraper.js lines 3-14) -/

def SEARCH_KEYWORDS : List String :=
  ["vibe coding", "indie hacker", "solopreneur", "solo founder",
   "bootstrapped startup", "side project", "build in public",
   "solo developer", "indie developer", "maker"]

def TAG_KEYWORDS : List String :=
  ["indie-hackers", "solopreneurship", "bootstrapping", "side-project",
   "startup-lessons", "founders", "saas", "makers"]

def HACKERNOON_BASE : String := "https://hackernoon.com"

/-! ## Set / Map embeddings -/

/-- JS `Set.prototype.add`: append if absent. -/
def setAdd (s : List String) (x : String) : List String :=
  if x ∈ s then s else s ++ [x]

/-- JS `Map.prototype.get` on an association list. -/
def mapGet {α : Type} : List (String × α) → String → Option α
  | [], _ => none
  | p :: rest, k => if p.1 = k then some p.2 else mapGet rest k

/-- JS `Map.prototype.set`: update the first entry carrying the key in
place, else append. -/
def mapSet {α : Type} : List (String × α) → String → α → List (String × α)
  | [], k, v => [(k, v)]
  | p :: rest, k, v => if p.1 = k then (k, v) :: rest else p :: mapSet rest k v

/-- Accumulator pass for `new Set(iterable)`: `seen` holds the elements
already emitted. -/
def dedupGo (seen : List String) : List String → List String
  | [] => []
  | x :: xs =>
    if x ∈ seen then dedupGo seen xs
    else x :: dedupGo (seen ++ [x]) xs

/-- `new Set(iterable)`: keep the first occurrence of each element. -/
def dedupFirst (l : List String) : List String :=
  dedupGo [] l

/-- Accumulator pass for `new Map(entries)`: `seen` holds the keys
already emitted; a repeated key keeps its first position but takes its
last value. -/
def jsMapGo {α : Type} (seen : List String) :
    List (String × α) → List (String × α)
  | [] => []
  | (k, v) :: rest =>
    if k ∈ seen then jsMapGo seen rest
    else
      (k, ((((rest.filter (fun p => p.1 = k)).map Prod.snd).getLast?).getD v)) ::
        jsMapGo (seen ++ [k]) rest

/-- `new Map(entries)`: first-occurrence key order, last value for a
repeated key wins. -/
def jsMapOfEntries {α : Type} (l : List (String × α)) : List (String × α) :=
  jsMapGo [] l

/-! ## Data model -/

/-- One entry pushed onto `authorArticles` (scraper.js lines 298-302). -/
structure ArticleEntry where
  title : String
  url : String
  keywords : List String
deriving Repr, DecidableEq

/-- A value of `authorsMap` (scraper.js lines 305-311).  `twitter`,
`linkedin`, `github` are absent (JS `undefined`) until the enrichment
phase assigns them, hence `Option String` with `none` = absent. -/
structure Author where
  handle : String
  name : String
  profileUrl : String
  bio : String
  website : String
  keywords : List String
  twitter : Option String := none
  linkedin : Option String := none
  github : Option String := none
deriving Repr, DecidableEq

/-- The scraper's mutable state (constructor, scraper.js lines 23-30). -/
structure ScraperState where
  authorsMap : List (String × Author)
  authorArticles : List (String × List ArticleEntry)
  processedUrls : List String
  processedProfiles : List String
  seenSlugs : List String
deriving Repr, DecidableEq

def emptyState : ScraperState :=
  { authorsMap := [], authorArticles := [], processedUrls := [],
    processedProfiles := [], seenSlugs := [] }

/-- The snapshot produced by `exportState` (scraper.js lines 32-40). -/
structure ExportedState where
  processedUrls : List String
  processedProfiles : List String
  seenSlugs : List String
  authorsMap : List (String × Author)
  authorArticles : List (String × List ArticleEntry)
deriving Repr, DecidableEq

/-- `exportState` (scraper.js lines 32-40): `Array.from` on each set and
map, i.e. the identity on the list embedding. -/
def exportState (s : ScraperState) : ExportedState :=
  { processedUrls := s.processedUrls
    processedProfiles := s.processedProfiles
    seenSlugs := s.seenSlugs
    authorsMap := s.authorsMap
    authorArticles := s.authorArticles }

/-- The constructor (scraper.js lines 23-30): `existingState || {}`,
then `new Map(...)` / `new Set(...)` over each exported array (a missing
field defaults to the empty collection, covered by the `none` case). -/
def mkScraper (existingState : Option ExportedState) : ScraperState :=
  match existingState with
  | none => emptyState
  | some st =>
    { authorsMap := jsMapOfEntries st.authorsMap
      authorArticles := jsMapOfEntries st.authorArticles
      processedUrls := dedupFirst st.processedUrls
      processedProfiles := dedupFirst st.processedProfiles
      seenSlugs := dedupFirst st.seenSlugs }

/-! ## Frontier Collector (`collectFromSitemap`, scraper.js lines 100-126)

The regex pass over the sitemap XML yields the successive `<loc>` URL
matches; the collector's input page content is embedded as that list of
matched URLs (`none` = `fetchPage` returned `null`). -/

structure ContentRef where
  slug : String
  url : String
deriving Repr, DecidableEq

/-- `url.replace(HACKERNOON_BASE + '/', '')` (scraper.js line 111). -/
def slugOf (url : String) : String :=
  replaceFirst url (HACKERNOON_BASE ++ "/") ""

/-- The non-article skip test (scraper.js line 114). -/
def structSkip (slug : String) : Bool :=
  strIncludes slug "/" || strLeadsWith slug "u-" || strLeadsWith slug "tagged-"

/-- The `while` loop of `collectFromSitemap` (scraper.js lines 109-122);
`found` is `articles.length` so far, the `break` fires when it reaches
`maxArticles` right after a push. -/
def collectGo (s : ScraperState) (locs : List String) (maxArticles found : Nat) :
    List ContentRef × ScraperState :=
  match locs with
  | [] => ([], s)
  | url :: rest =>
    let slug := slugOf url
    if structSkip slug then collectGo s rest maxArticles found
    else if slug ∈ s.seenSlugs then collectGo s rest maxArticles found
    else if url ∈ s.processedUrls then collectGo s rest maxArticles found
    else
      let s' := { s with seenSlugs := setAdd s.seenSlugs slug }
      if found + 1 ≥ maxArticles then ([⟨slug, url⟩], s')
      else
        let r := collectGo s' rest maxArticles (found + 1)
        (⟨slug, url⟩ :: r.1, r.2)

/-- `collectFromSitemap` (scraper.js lines 100-126). -/
def collectFromSitemap (s : ScraperState) (page : Option (List String))
    (maxArticles : Nat := 50) : List ContentRef × ScraperState :=
  match page with
  | none => ([], s)
  | some locs => collectGo s locs maxArticles 0

/-! ## Content Extractor (`getArticleData`, scraper.js lines 136-200) -/

/-- One `callToActions` element as read by the extractor. -/
structure CTA where
  url : Option String
  active : Bool
deriving Repr, DecidableEq

/-- The `pageProps.profile` object (missing fields are `none`). -/
structure Profile where
  handle : Option String := none
  displayName : Option String := none
  bio : Option String := none
  callToActions : Option (List CTA) := none
  adLink : Option String := none
deriving Repr, DecidableEq

/-- `nextData.props?.pageProps?.data || {}` after the `|| {}` default:
`tags` already carries the `t.slug || t` projection applied by the
code. -/
structure PageData where
  profile : Option Profile := none
  title : Option String := none
  excerpt : Option String := none
  tags : Option (List String) := none
deriving Repr, DecidableEq

/-- Outcome of `fetchPage` + `extractNextData` for one article URL:
`fetchFail` = `fetchPage` returned `null`; `noNextData` = HTML fetched
but `extractNextData` returned `null`; `gotData` carries the parsed
page data. -/
inductive FetchOutcome where
  | fetchFail
  | noNextData
  | gotData (pageProps : PageData)
deriving Repr, DecidableEq

/-- JS truthiness of a possibly-absent string. -/
def truthy : Option String → Bool
  | none => false
  | some s => !(s = "")

/-- JS `a || b` for a possibly-absent string with a string default. -/
def jsOrStr (o : Option String) (d : String) : String :=
  match o with
  | none => d
  | some s => if s = "" then d else s

/-- The extractor's result object (scraper.js lines 190-199). -/
structure ArticleData where
  handle : String
  name : String
  profileUrl : String
  bio : String
  website : String
  articleTitle : String
  articleUrl : String
  matchedKeywords : List String
deriving Repr, DecidableEq

/-- `cleanName` (scraper.js lines 50-53). -/
def cleanName (raw : String) : String :=
  if raw = "" then ""
  else ⟨trimChars (collapseWs (removeAtHandles (stripLeadingBy raw.data)))⟩

/-- `matchesKeywords` (scraper.js lines 129-133): search keywords as
lower-cased substrings of `title excerpt tags.join(' ')`, or a tag
keyword with `-` rewritten to ` ` as a substring of the same text. -/
def matchesKeywords (title excerpt : String) (tags : List String) : Bool :=
  let text := lowerStr (title ++ " " ++ excerpt ++ " " ++ joinSpace tags)
  SEARCH_KEYWORDS.any (fun kw => strIncludes text (lowerStr kw)) ||
    TAG_KEYWORDS.any (fun tag =>
      strIncludes text ⟨tag.data.map (fun c => if c = '-' then ' ' else c)⟩)

/-- The website derivation from `callToActions` and `adLink`
(scraper.js lines 160-176). -/
def websiteOf (profile : Profile) : String :=
  let fromCta :=
    match profile.callToActions with
    | none => ""
    | some ctas =>
      match ctas.find? (fun cta =>
          truthy cta.url && cta.active &&
          !(strIncludes (cta.url.getD "") "hackernoon.com") &&
          !(strIncludes (cta.url.getD "") "twitter.com") &&
          !(strIncludes (cta.url.getD "") "linkedin.com") &&
          !(strIncludes (cta.url.getD "") "github.com")) with
      | some webCta => webCta.url.getD ""
      | none => ""
  if fromCta = "" ∧ truthy profile.adLink ∧
      ¬ strIncludes (profile.adLink.getD "") "hackernoon" = true then
    profile.adLink.getD ""
  else fromCta

/-- The `matchedKeywords` accumulation (scraper.js lines 178-188)
followed by the `[...new Set(...)]` dedup of line 198. -/
def matchedKeywordsOf (title excerpt : String) (tags : List String) : List String :=
  dedupFirst
    (SEARCH_KEYWORDS.filter (fun kw =>
        strIncludes (lowerStr (title ++ " " ++ excerpt)) (lowerStr kw)) ++
      tags.filter (fun tag => tag ∈ TAG_KEYWORDS))

/-- `getArticleData` (scraper.js lines 136-200).  Marks the URL
processed before any fallible step; `fetched` stands for the network
plus `__NEXT_DATA__` parsing outcome. -/
def getArticleData (s : ScraperState) (articleUrl : String)
    (fetched : FetchOutcome) : Option ArticleData × ScraperState :=
  if articleUrl ∈ s.processedUrls then (none, s)
  else
    let s := { s with processedUrls := setAdd s.processedUrls articleUrl }
    match fetched with
    | .fetchFail => (none, s)
    | .noNextData => (none, s)
    | .gotData pageProps =>
      let profile := pageProps.profile.getD {}
      let title := jsOrStr pageProps.title ""
      let excerpt := jsOrStr pageProps.excerpt ""
      let tags := pageProps.tags.getD []
      if ¬ matchesKeywords title excerpt tags = true then (none, s)
      else if ¬ truthy profile.handle = true then (none, s)
      else
        (some
          { handle := profile.handle.getD ""
            name := cleanName (jsOrStr profile.displayName (profile.handle.getD ""))
            profileUrl := HACKERNOON_BASE ++ "/u/" ++ profile.handle.getD ""
            bio := jsOrStr profile.bio ""
            website := websiteOf profile
            articleTitle := title
            articleUrl := articleUrl
            matchedKeywords := matchedKeywordsOf title excerpt tags }, s)

/-! ## Author Merger (`scrape` phase 2 body, scraper.js lines 290-320) -/

/-- The author object created on first sight of a handle (scraper.js
lines 305-311); `keywords: new Set(data.matchedKeywords)`. -/
def freshAuthorOf (data : ArticleData) : Author :=
  { handle := data.handle
    name := data.name
    profileUrl := data.profileUrl
    bio := data.bio
    website := data.website
    keywords := dedupFirst data.matchedKeywords }

/-- The repeat-observation merge (scraper.js lines 314-318): union the
keyword set, fill `website` only when it is still empty. -/
def mergeAuthorInto (existing : Author) (data : ArticleData) : Author :=
  let merged : Author :=
    { existing with keywords := data.matchedKeywords.foldl setAdd existing.keywords }
  if data.website ≠ "" ∧ merged.website = "" then
    { merged with website := data.website }
  else merged

/-- The per-article merge step of `scrape` for a non-null extraction
result with a truthy handle: push the article onto `authorArticles`
(lines 295-302), then create-or-merge in `authorsMap` (lines
304-319). -/
def processArticleResult (s : ScraperState) (data : ArticleData) : ScraperState :=
  let arts := (mapGet s.authorArticles data.handle).getD []
  let entry : ArticleEntry :=
    { title := data.articleTitle, url := data.articleUrl,
      keywords := data.matchedKeywords }
  let arts' := mapSet s.authorArticles data.handle (arts ++ [entry])
  let s := { s with authorArticles := arts' }
  match mapGet s.authorsMap data.handle with
  | none =>
    { s with authorsMap := mapSet s.authorsMap data.handle (freshAuthorOf data) }
  | some existing =>
    { s with authorsMap :=
        mapSet s.authorsMap data.handle (mergeAuthorInto existing data) }

/-! ## Profile Enricher (`getProfileSocial` + `scrape` phase 3,
scraper.js lines 203-242 and 328-348) -/

/-- What `getProfileSocial` derives from a successfully fetched profile
page: the cheerio link scan plus the display name from the page's
`__NEXT_DATA__`.  The scan itself is opaque to the claims, so it is an
input. -/
structure SocialResult where
  twitter : Option String := none
  linkedin : Option String := none
  github : Option String := none
  website : Option String := none
  name : String := ""
deriving Repr, DecidableEq

/-- `getProfileSocial` (scraper.js lines 203-242): mark the profile
processed first, then either fail (`fetched = none`) or return the
scanned result. -/
def getProfileSocial (s : ScraperState) (profileUrl : String)
    (fetched : Option SocialResult) : Option SocialResult × ScraperState :=
  if profileUrl ∈ s.processedProfiles then (none, s)
  else
    let s := { s with processedProfiles := setAdd s.processedProfiles profileUrl }
    match fetched with
    | none => (none, s)
    | some r => (some r, s)

/-- The field assignments of the phase-3 loop body (scraper.js lines
337-345). -/
def applySocial (a : Author) (r : SocialResult) : Author :=
  let a := { a with
    twitter := some (r.twitter.getD "")
    linkedin := some (r.linkedin.getD "")
    github := some (r.github.getD "") }
  let a :=
    if r.website.getD "" ≠ "" ∧ a.website = "" then
      { a with website := r.website.getD "" }
    else a
  if r.name ≠ "" ∧ a.name.length < r.name.length then { a with name := r.name }
  else a

/-- The `authorsNeedingSocial` filter (scraper.js line 329). -/
def needsSocial (s : ScraperState) (a : Author) : Bool :=
  !truthy a.twitter && !truthy a.linkedin &&
    !(decide (a.profileUrl ∈ s.processedProfiles))

/-- One iteration of the phase-3 loop for the author stored under
`h` (scraper.js lines 333-348); `env` supplies the profile-page fetch
outcome per URL. -/
def enrichOne (s : ScraperState) (h : String)
    (env : String → Option SocialResult) : ScraperState :=
  match mapGet s.authorsMap h with
  | none => s
  | some a =>
    let pr := getProfileSocial s a.profileUrl (env a.profileUrl)
    match pr.1 with
    | none => pr.2
    | some r =>
      { pr.2 with authorsMap := mapSet pr.2.authorsMap h (applySocial a r) }

/-- Phase 3 of `scrape` (scraper.js lines 328-348): filter the authors
needing social data against the phase-start state, then enrich each in
order. -/
def enrichPhase (s : ScraperState) (env : String → Option SocialResult) :
    ScraperState :=
  let selected :=
    ((s.authorsMap.map Prod.snd).filter (needsSocial s)).map Author.handle
  selected.foldl (fun st h => enrichOne st h env) s

/-! ## Result Finalizer (`scrape` lines 350-388) -/

/-- One element of the finalized `authors` array (scraper.js lines
351-369). -/
structure FinalAuthor where
  handle : String
  name : String
  profileUrl : String
  bio : String
  twitter : String
  linkedin : String
  github : String
  website : String
  sampleArticles : List ArticleEntry
  matchedKeywords : List String
deriving Repr, DecidableEq

/-- The `stats` object (scraper.js lines 375-386). -/
structure Stats where
  totalAuthors : Nat
  newAuthorsThisRun : Nat
  withTwitter : Nat
  withLinkedIn : Nat
  withGitHub : Nat
  withWebsite : Nat
  articlesProcessed : Nat
  articlesMatched : Nat
  totalArticlesProcessed : Nat
  processingTimeMs : Nat
deriving Repr, DecidableEq

/-- The `scrape` return value (scraper.js lines 373-388). -/
structure ScrapeOutput where
  authors : List FinalAuthor
  stats : Stats
  state : ExportedState
deriving Repr, DecidableEq

/-- The per-author projection of the finalizer (scraper.js lines
351-369): name fallback to the handle below length 2, `|| ''` defaults,
`arts.slice(0, 5)` sample cap, keyword set listed in insertion order. -/
def finalizeAuthor (s : ScraperState) (a : Author) : FinalAuthor :=
  let arts := (mapGet s.authorArticles a.handle).getD []
  { handle := a.handle
    name := if a.name ≠ "" ∧ 2 ≤ a.name.length then a.name else a.handle
    profileUrl := a.profileUrl
    bio := a.bio
    twitter := a.twitter.getD ""
    linkedin := a.linkedin.getD ""
    github := a.github.getD ""
    website := a.website
    sampleArticles :=
      (arts.take 5).map (fun x =>
        { title := x.title, url := x.url, keywords := x.keywords })
    matchedKeywords := a.keywords }

/-- The finalizer (scraper.js lines 350-388): a read of the state plus
the run counters (`newAuthorsCount`, `allArticles.length`,
`matchedCount`) and the elapsed wall-clock time `Date.now() -
startTime`, which enters only `processingTimeMs`. -/
def finalizeOutput (s : ScraperState)
    (newAuthorsCount articlesCollected matchedCount elapsedMs : Nat) :
    ScrapeOutput :=
  let finalAuthors := (s.authorsMap.map Prod.snd).map (finalizeAuthor s)
  { authors := finalAuthors
    stats :=
      { totalAuthors := finalAuthors.length
        newAuthorsThisRun := newAuthorsCount
        withTwitter := (finalAuthors.filter (fun a => decide (a.twitter ≠ ""))).length
        withLinkedIn := (finalAuthors.filter (fun a => decide (a.linkedin ≠ ""))).length
        withGitHub := (finalAuthors.filter (fun a => decide (a.github ≠ ""))).length
        withWebsite := (finalAuthors.filter (fun a => decide (a.website ≠ ""))).length
        articlesProcessed := articlesCollected
        articlesMatched := matchedCount
        totalArticlesProcessed := s.processedUrls.length
        processingTimeMs := elapsedMs }
    state := exportState s }

/-! ## Operation sequences over the state -/

/-- One state-mutating engine operation: folding a non-null extraction
result (merger) or running an enrichment phase. -/
inductive Op where
  | extract (d : ArticleData)
  | enrich (env : String → Option SocialResult)

def applyOp (s : ScraperState) : Op → ScraperState
  | .extract d => processArticleResult s d
  | .enrich env => enrichPhase s env

def runOps (s : ScraperState) (ops : List Op) : ScraperState :=
  ops.foldl applyOp s

/-! ## Invariants, preservation contracts and concrete witness data -/

/-- The reasons the collector loop skips a URL without emitting a
reference: structurally non-article, slug already seen, or URL already
processed. -/
def skipCond (s : ScraperState) (url : String) : Prop :=
  structSkip (slugOf url) = true ∨ slugOf url ∈ s.seenSlugs ∨
    url ∈ s.processedUrls

/-- A sample populated crawl state used by concrete witnesses. -/
def sampleAuthor : Author :=
  { handle := "jdoe", name := "Jane Doe",
    profileUrl := "https://hackernoon.com/u/jdoe", bio := "b",
    website := "", keywords := ["maker"] }

def c2State : ScraperState :=
  { authorsMap := [("jdoe", sampleAuthor)]
    authorArticles := [("jdoe", [{ title := "T", url := "u1", keywords := ["maker"] }])]
    processedUrls := ["u1", "u2"]
    processedProfiles := ["https://hackernoon.com/u/jdoe"]
    seenSlugs := ["t-1"] }

def c7Articles : List ArticleEntry :=
  [{ title := "t1", url := "u1", keywords := [] },
   { title := "t2", url := "u2", keywords := [] },
   { title := "t3", url := "u3", keywords := [] },
   { title := "t4", url := "u4", keywords := [] },
   { title := "t5", url := "u5", keywords := [] },
   { title := "t6", url := "u6", keywords := [] },
   { title := "t7", url := "u7", keywords := [] },
   { title := "t8", url := "u8", keywords := [] }]

def c7State : ScraperState :=
  { authorsMap := [("jdoe", sampleAuthor)]
    authorArticles := [("jdoe", c7Articles)]
    processedUrls := []
    processedProfiles := []
    seenSlugs := [] }

def c3Locs : List String :=
  ["https://hackernoon.com/a-1", "https://hackernoon.com/b-2"]

def c4d1 : ArticleData :=
  { handle := "jdoe", name := "Jane", profileUrl := "p", bio := "",
    website := "", articleTitle := "t1", articleUrl := "u1",
    matchedKeywords := ["indie hacker"] }

def c4d2 : ArticleData :=
  { handle := "jdoe", name := "Jane", profileUrl := "p", bio := "",
    website := "", articleTitle := "t2", articleUrl := "u2",
    matchedKeywords := ["maker"] }

def c5Author : Author :=
  { handle := "jdoe", name := "jane", profileUrl := "p", bio := "",
    website := "", keywords := [] }

def c5State : ScraperState :=
  { emptyState with authorsMap := [("jdoe", c5Author)] }

def c5Data : ArticleData :=
  { handle := "jdoe", name := "Jane Doe", profileUrl := "p", bio := "",
    website := "", articleTitle := "t", articleUrl := "u",
    matchedKeywords := [] }

/-- Invariant of every reachable state: an author whose social fields
have ever been assigned (they are assigned together) has their profile
URL recorded in `processedProfiles`, because `getProfileSocial` commits
the URL before the fields can be assigned.  This is what protects
populated social fields from the unconditional assignments of the
enrichment loop. -/
def SocialInv (s : ScraperState) : Prop :=
  ∀ p ∈ s.authorsMap,
    (p.2.twitter = none ∧ p.2.linkedin = none ∧ p.2.github = none) ∨
      p.2.profileUrl ∈ s.processedProfiles

/-- Per-author preservation contract: populated `bio`/`website` are
never changed, populated (`some`, non-empty) social links are never
changed, and `handle`/`profileUrl` are immutable. -/
def PreservesAuthor (a a' : Author) : Prop :=
  (a.bio ≠ "" → a'.bio = a.bio) ∧
  (a.website ≠ "" → a'.website = a.website) ∧
  (∀ t, a.twitter = some t → t ≠ "" → a'.twitter = some t) ∧
  (∀ t, a.linkedin = some t → t ≠ "" → a'.linkedin = some t) ∧
  (∀ t, a.github = some t → t ≠ "" → a'.github = some t) ∧
  a'.handle = a.handle ∧ a'.profileUrl = a.profileUrl

def c6d1 : ArticleData :=
  { handle := "jdoe", name := "Jane", profileUrl := "p", bio := "",
    website := "", articleTitle := "t1", articleUrl := "u1",
    matchedKeywords := [] }

def c6d2 : ArticleData :=
  { handle := "jdoe", name := "Jane", profileUrl := "p", bio := "B",
    website := "", articleTitle := "t2", articleUrl := "u2",
    matchedKeywords := [] }

def c6Author : Author :=
  { handle := "jdoe", name := "Jane", profileUrl := "p", bio := "X",
    website := "W", keywords := [] }

def c6State : ScraperState :=
  { emptyState with authorsMap := [("jdoe", c6Author)] }

def c6Ops : List Op :=
  [Op.extract c6d2,
   Op.enrich (fun _ => some { twitter := some "tw", name := "Janet Doe" })]

/-- Invariant: every author record in the map has a non-empty handle
(authors are only ever created from non-null extraction results). -/
def HandleInv (s : ScraperState) : Prop :=
  ∀ p ∈ s.authorsMap, p.2.handle ≠ ""

def c10Page : PageData :=
  { profile := some { handle := some "jdoe" }
    title := some "startup lessons learned" }

def c10Url : String := "https://hackernoon.com/x-1"

def c10Result : ArticleData :=
  { handle := "jdoe", name := "jdoe",
    profileUrl := "https://hackernoon.com/u/jdoe", bio := "", website := "",
    articleTitle := "startup lessons learned", articleUrl := c10Url,
    matchedKeywords := [] }

/-! ## Basic lemmas about the set / map embeddings -/

theorem mem_setAdd {s : List String} {x y : String} :
    y ∈ setAdd s x ↔ y ∈ s ∨ y = x := by
  unfold setAdd
  split
  · rename_i hx
    constructor
    · exact Or.inl
    · rintro (h | rfl)
      · exact h
      · exact hx
  · simp

theorem self_mem_setAdd {s : List String} {x : String} : x ∈ setAdd s x :=
  mem_setAdd.mpr (Or.inr rfl)

theorem mem_of_mem_setAdd_ne {s : List String} {x y : String}
    (h : y ∈ setAdd s x) (hne : y ≠ x) : y ∈ s := by
  rcases mem_setAdd.mp h with h' | rfl
  · exact h'
  · exact absurd rfl hne

theorem mapGet_mapSet_self {α : Type} (m : List (String × α)) (k : String) (v : α) :
    mapGet (mapSet m k v) k = some v := by
  induction m with
  | nil => simp [mapSet, mapGet]
  | cons p rest ih =>
    by_cases h : p.1 = k
    · simp [mapSet, mapGet, h]
    · simp [mapSet, mapGet, h, ih]

theorem mapGet_mapSet_ne {α : Type} (m : List (String × α)) {k k' : String} (v : α)
    (h : k' ≠ k) : mapGet (mapSet m k v) k' = mapGet m k' := by
  have hkk : ¬ k = k' := fun hh => h hh.symm
  induction m with
  | nil => simp [mapSet, mapGet, hkk]
  | cons p rest ih =>
    by_cases hp : p.1 = k
    · subst hp
      simp [mapSet, mapGet, hkk]
    · by_cases hp' : p.1 = k'
      · simp [mapSet, mapGet, hp, hp', h]
      · simp [mapSet, mapGet, hp, hp', ih]

theorem mem_mapSet {α : Type} {m : List (String × α)} {k : String} {v : α}
    {p : String × α} (h : p ∈ mapSet m k v) : p = (k, v) ∨ p ∈ m := by
  induction m with
  | nil => simpa [mapSet] using h
  | cons q rest ih =>
    by_cases hq : q.1 = k
    · simp only [mapSet, if_pos hq, List.mem_cons] at h
      rcases h with rfl | h
      · exact Or.inl rfl
      · exact Or.inr (List.mem_cons_of_mem _ h)
    · simp only [mapSet, if_neg hq, List.mem_cons] at h
      rcases h with rfl | h
      · exact Or.inr (List.mem_cons_self _ _)
      · rcases ih h with h' | h'
        · exact Or.inl h'
        · exact Or.inr (List.mem_cons_of_mem _ h')

theorem mapGet_mem {α : Type} {m : List (String × α)} {k : String} {v : α}
    (h : mapGet m k = some v) : (k, v) ∈ m := by
  induction m with
  | nil => simp [mapGet] at h
  | cons p rest ih =>
    by_cases hp : p.1 = k
    · simp only [mapGet, if_pos hp] at h
      obtain rfl := Option.some.inj h
      obtain ⟨p1, p2⟩ := p
      obtain rfl : p1 = k := hp
      exact List.mem_cons_self _ _
    · simp only [mapGet, if_neg hp] at h
      exact List.mem_cons_of_mem _ (ih h)

theorem mapGet_isSome_mapSet {α : Type} (m : List (String × α)) (k h : String)
    (v : α) (hs : (mapGet m h).isSome) : (mapGet (mapSet m k v) h).isSome := by
  by_cases hk : h = k
  · subst hk
    simp [mapGet_mapSet_self]
  · rwa [mapGet_mapSet_ne m v hk]

theorem mem_dedupGo {l : List String} {seen : List String} {y : String} :
    y ∈ dedupGo seen l ↔ y ∈ l ∧ y ∉ seen := by
  induction l generalizing seen with
  | nil => simp [dedupGo]
  | cons x xs ih =>
    by_cases hx : x ∈ seen
    · rw [dedupGo, if_pos hx, ih]
      constructor
      · rintro ⟨h1, h2⟩
        exact ⟨List.mem_cons_of_mem _ h1, h2⟩
      · rintro ⟨h1, h2⟩
        rcases List.mem_cons.mp h1 with rfl | h1
        · exact absurd hx h2
        · exact ⟨h1, h2⟩
    · rw [dedupGo, if_neg hx]
      constructor
      · intro hy
        rcases List.mem_cons.mp hy with rfl | hy
        · exact ⟨List.mem_cons_self _ _, hx⟩
        · rcases ih.mp hy with ⟨h1, h2⟩
          exact ⟨List.mem_cons_of_mem _ h1,
            fun hs => h2 (List.mem_append_left _ hs)⟩
      · rintro ⟨h1, h2⟩
        rcases List.mem_cons.mp h1 with rfl | h1
        · exact List.mem_cons_self _ _
        · by_cases hyx : y = x
          · subst hyx
            exact List.mem_cons_self _ _
          · refine List.mem_cons_of_mem _ (ih.mpr ⟨h1, fun hs => ?_⟩)
            rcases List.mem_append.mp hs with hs | hs
            · exact h2 hs
            · exact hyx (List.mem_singleton.mp hs)

theorem mem_dedupFirst {l : List String} {y : String} :
    y ∈ dedupFirst l ↔ y ∈ l := by
  unfold dedupFirst
  rw [mem_dedupGo]
  simp

theorem nodup_dedupGo {l : List String} {seen : List String} :
    (dedupGo seen l).Nodup := by
  induction l generalizing seen with
  | nil => simp [dedupGo]
  | cons x xs ih =>
    by_cases hx : x ∈ seen
    · rw [dedupGo, if_pos hx]
      exact ih
    · rw [dedupGo, if_neg hx]
      refine List.nodup_cons.mpr ⟨fun hmem => ?_, ih⟩
      rcases mem_dedupGo.mp hmem with ⟨_, h2⟩
      exact h2 (List.mem_append_right _ (List.mem_singleton.mpr rfl))

theorem nodup_dedupFirst (l : List String) : (dedupFirst l).Nodup :=
  nodup_dedupGo

theorem dedupGo_eq_self {l : List String} {seen : List String} (h : l.Nodup)
    (hd : ∀ y ∈ l, y ∉ seen) : dedupGo seen l = l := by
  induction l generalizing seen with
  | nil => rfl
  | cons x xs ih =>
    rcases List.nodup_cons.mp h with ⟨hx, hxs⟩
    rw [dedupGo, if_neg (hd x (List.mem_cons_self _ _))]
    congr 1
    refine ih hxs (fun y hy hmem => ?_)
    rcases List.mem_append.mp hmem with hs | hs
    · exact hd y (List.mem_cons_of_mem _ hy) hs
    · obtain rfl := List.mem_singleton.mp hs
      exact hx hy

theorem dedupFirst_eq_self {l : List String} (h : l.Nodup) : dedupFirst l = l :=
  dedupGo_eq_self h (by simp)

theorem jsMapGo_eq_self {α : Type} {l : List (String × α)} {seen : List String}
    (h : (l.map Prod.fst).Nodup) (hd : ∀ p ∈ l, p.1 ∉ seen) :
    jsMapGo seen l = l := by
  induction l generalizing seen with
  | nil => rfl
  | cons p rest ih =>
    obtain ⟨k, v⟩ := p
    simp only [List.map_cons, List.nodup_cons, List.mem_map] at h
    obtain ⟨hk, hrest⟩ := h
    rw [jsMapGo, if_neg (hd (k, v) (List.mem_cons_self _ _))]
    have hf1 : rest.filter (fun p => p.1 = k) = [] := by
      refine List.filter_eq_nil_iff.mpr (fun p hp => ?_)
      simp only [decide_eq_true_eq]
      exact fun hpk => hk ⟨p, hp, hpk⟩
    rw [hf1]
    simp only [List.map_nil, List.getLast?_nil, Option.getD_none]
    congr 1
    refine ih hrest (fun p hp hmem => ?_)
    rcases List.mem_append.mp hmem with hs | hs
    · exact hd p (List.mem_cons_of_mem _ hp) hs
    · obtain hs := List.mem_singleton.mp hs
      exact hk ⟨p, hp, hs⟩

theorem jsMapOfEntries_eq_self {α : Type} {l : List (String × α)}
    (h : (l.map Prod.fst).Nodup) : jsMapOfEntries l = l :=
  jsMapGo_eq_self h (by simp)

theorem mem_foldl_setAdd {l : List String} {acc : List String} {y : String} :
    y ∈ l.foldl setAdd acc ↔ y ∈ acc ∨ y ∈ l := by
  induction l generalizing acc with
  | nil => simp
  | cons x xs ih =>
    simp only [List.foldl_cons, ih, mem_setAdd, List.mem_cons]
    tauto

/-! ## Claim C1 -/

/-- Claim C1: an already-processed URL makes `getArticleData` a no-op
returning `null`; a fresh URL is appended to `processedUrls` and stays
there regardless of outcome, while fetch failure, missing
`__NEXT_DATA__`, a failed keyword match, or an absent profile handle
each yield a `null` result. -/
theorem C1_extractor_at_most_once (s : ScraperState) (url : String)
    (f : FetchOutcome) :
    (url ∈ s.processedUrls → getArticleData s url f = (none, s)) ∧
    (url ∉ s.processedUrls →
      (getArticleData s url f).2.processedUrls = s.processedUrls ++ [url] ∧
      url ∈ (getArticleData s url f).2.processedUrls ∧
      ((f = .fetchFail ∨ f = .noNextData) → (getArticleData s url f).1 = none) ∧
      (∀ d, f = .gotData d →
        matchesKeywords (jsOrStr d.title "") (jsOrStr d.excerpt "")
          (d.tags.getD []) = false →
        (getArticleData s url f).1 = none) ∧
      (∀ d, f = .gotData d → truthy (d.profile.getD {}).handle = false →
        (getArticleData s url f).1 = none)) := by
  constructor
  · intro h
    simp [getArticleData, h]
  · intro h
    have hadd : setAdd s.processedUrls url = s.processedUrls ++ [url] := by
      simp [setAdd, h]
    have hsnd : (getArticleData s url f).2.processedUrls = s.processedUrls ++ [url] := by
      cases f with
      | fetchFail => simp [getArticleData, h, hadd]
      | noNextData => simp [getArticleData, h, hadd]
      | gotData d =>
        simp only [getArticleData, if_neg h]
        split
        · simp [hadd]
        · split
          · simp [hadd]
          · simp [hadd]
    refine ⟨hsnd, ?_, ?_, ?_, ?_⟩
    · rw [hsnd]
      simp
    · rintro (rfl | rfl) <;> simp [getArticleData, h]
    · rintro d rfl hmk
      simp [getArticleData, h, hmk]
    · rintro d rfl hhandle
      simp only [getArticleData, if_neg h]
      split
      · rfl
      · simp [hhandle]

/-- Witness for C1 at concrete inputs: the no-op branch on an
already-processed URL, and the append on a fresh URL. -/
theorem C1_extractor_at_most_once_witness :
    getArticleData { emptyState with processedUrls := ["u"] } "u" .fetchFail =
      (none, { emptyState with processedUrls := ["u"] }) ∧
    (getArticleData emptyState "u" .fetchFail).2.processedUrls = [] ++ ["u"] := by
  constructor
  · exact (C1_extractor_at_most_once
      { emptyState with processedUrls := ["u"] } "u" .fetchFail).1 (by decide)
  · exact ((C1_extractor_at_most_once emptyState "u" .fetchFail).2 (by decide)).1

/-! ## Claim C2 -/

/-- Claim C2: exporting a state, constructing a scraper from the export
and exporting again returns the first snapshot unchanged.  The `Nodup`
hypotheses express the representation invariant of the JS `Set` / `Map`
collections the state is exported from (they cannot hold duplicate
elements or keys). -/
theorem C2_export_roundtrip (s : ScraperState)
    (h1 : s.processedUrls.Nodup) (h2 : s.processedProfiles.Nodup)
    (h3 : s.seenSlugs.Nodup) (h4 : (s.authorsMap.map Prod.fst).Nodup)
    (h5 : (s.authorArticles.map Prod.fst).Nodup) :
    exportState (mkScraper (some (exportState s))) = exportState s := by
  simp only [exportState, mkScraper]
  rw [dedupFirst_eq_self h1, dedupFirst_eq_self h2, dedupFirst_eq_self h3,
    jsMapOfEntries_eq_self h4, jsMapOfEntries_eq_self h5]

/-- Witness for C2: the round trip fixes a concrete populated state. -/
theorem C2_export_roundtrip_witness :
    exportState (mkScraper (some (exportState c2State))) = exportState c2State :=
  C2_export_roundtrip c2State (by decide) (by decide) (by decide) (by decide)
    (by decide)

/-! ## Claim C7 -/

/-- Claim C7: each finalized author carries at most 5 sample articles;
with at least 5 collected articles exactly the first 5 (oldest first)
are retained, and the merger appends each observed article at the end
of the author's list, so the retained ones are the earliest
observations. -/
theorem C7_sample_cap (s : ScraperState) (n l m t : Nat) :
    (∀ fa ∈ (finalizeOutput s n l m t).authors, fa.sampleArticles.length ≤ 5) ∧
    (∀ a ∈ s.authorsMap.map Prod.snd,
      (finalizeAuthor s a).sampleArticles =
        (((mapGet s.authorArticles a.handle).getD []).take 5).map
          (fun x => { title := x.title, url := x.url, keywords := x.keywords }) ∧
      (5 ≤ ((mapGet s.authorArticles a.handle).getD []).length →
        (finalizeAuthor s a).sampleArticles.length = 5)) ∧
    (∀ d : ArticleData,
      mapGet (processArticleResult s d).authorArticles d.handle =
        some (((mapGet s.authorArticles d.handle).getD []) ++
          [{ title := d.articleTitle, url := d.articleUrl,
             keywords := d.matchedKeywords }])) := by
  refine ⟨?_, ?_, ?_⟩
  · intro fa hfa
    simp only [finalizeOutput, List.mem_map] at hfa
    obtain ⟨a, _, rfl⟩ := hfa
    simp only [finalizeAuthor, List.length_map, List.length_take]
    exact Nat.min_le_left _ _
  · intro a _
    refine ⟨rfl, fun h5 => ?_⟩
    simp only [finalizeAuthor, List.length_map, List.length_take]
    exact Nat.min_eq_left h5
  · intro d
    simp only [processArticleResult]
    split <;> exact mapGet_mapSet_self _ _ _

/-- Witness for C7: an author matched by 8 distinct articles ends with
exactly 5 sample articles. -/
theorem C7_sample_cap_witness :
    (finalizeAuthor c7State sampleAuthor).sampleArticles.length = 5 :=
  (((C7_sample_cap c7State 0 0 0 0).2.1 sampleAuthor (by decide)).2 (by decide))

/-! ## Claim C8 -/

/-- Claim C8 is false as stated: the finalizer's `stats` include
`processingTimeMs = Date.now() - startTime`, a wall-clock reading, so
two invocations on the identical unmutated state at different times are
not byte-for-byte identical. -/
theorem C8_finalizer_clock_counterexample :
    finalizeOutput emptyState 0 0 0 0 ≠ finalizeOutput emptyState 0 0 0 1 := by
  decide

/-- Claim C8 (amended): the finalizer is a pure read: it returns the
state unchanged as its exported snapshot, and its authors list and
every stats field other than `processingTimeMs` depend only on the
state and the run counters (they are invariant under the clock);
`processingTimeMs` is exactly the supplied elapsed-time reading. -/
theorem C8_finalizer_pure_read (s : ScraperState) (n l m t t' : Nat) :
    (finalizeOutput s n l m t).authors = (finalizeOutput s n l m t').authors ∧
    (finalizeOutput s n l m t).state = exportState s ∧
    (finalizeOutput s n l m t).stats.totalAuthors =
      (finalizeOutput s n l m t').stats.totalAuthors ∧
    (finalizeOutput s n l m t).stats.newAuthorsThisRun =
      (finalizeOutput s n l m t').stats.newAuthorsThisRun ∧
    (finalizeOutput s n l m t).stats.withTwitter =
      (finalizeOutput s n l m t').stats.withTwitter ∧
    (finalizeOutput s n l m t).stats.withLinkedIn =
      (finalizeOutput s n l m t').stats.withLinkedIn ∧
    (finalizeOutput s n l m t).stats.withGitHub =
      (finalizeOutput s n l m t').stats.withGitHub ∧
    (finalizeOutput s n l m t).stats.withWebsite =
      (finalizeOutput s n l m t').stats.withWebsite ∧
    (finalizeOutput s n l m t).stats.articlesProcessed =
      (finalizeOutput s n l m t').stats.articlesProcessed ∧
    (finalizeOutput s n l m t).stats.articlesMatched =
      (finalizeOutput s n l m t').stats.articlesMatched ∧
    (finalizeOutput s n l m t).stats.totalArticlesProcessed =
      (finalizeOutput s n l m t').stats.totalArticlesProcessed ∧
    (finalizeOutput s n l m t).stats.processingTimeMs = t :=
  ⟨rfl, rfl, rfl, rfl, rfl, rfl, rfl, rfl, rfl, rfl, rfl, rfl⟩

/-! ## Collector lemmas (for claim C3) -/

theorem collectGo_cons_skip1 {s : ScraperState} {url : String}
    {rest : List String} {m f : Nat} (h : structSkip (slugOf url) = true) :
    collectGo s (url :: rest) m f = collectGo s rest m f := by
  simp [collectGo, h]

theorem collectGo_cons_skip2 {s : ScraperState} {url : String}
    {rest : List String} {m f : Nat} (h1 : ¬ structSkip (slugOf url) = true)
    (h2 : slugOf url ∈ s.seenSlugs) :
    collectGo s (url :: rest) m f = collectGo s rest m f := by
  simp [collectGo, h1, h2]

theorem collectGo_cons_skip3 {s : ScraperState} {url : String}
    {rest : List String} {m f : Nat} (h1 : ¬ structSkip (slugOf url) = true)
    (h2 : slugOf url ∉ s.seenSlugs) (h3 : url ∈ s.processedUrls) :
    collectGo s (url :: rest) m f = collectGo s rest m f := by
  simp [collectGo, h1, h2, h3]

theorem collectGo_cons_break {s : ScraperState} {url : String}
    {rest : List String} {m f : Nat} (h1 : ¬ structSkip (slugOf url) = true)
    (h2 : slugOf url ∉ s.seenSlugs) (h3 : url ∉ s.processedUrls)
    (h4 : f + 1 ≥ m) :
    collectGo s (url :: rest) m f =
      ([⟨slugOf url, url⟩],
       { s with seenSlugs := setAdd s.seenSlugs (slugOf url) }) := by
  simp [collectGo, h1, h2, h3, h4]

theorem collectGo_cons_push {s : ScraperState} {url : String}
    {rest : List String} {m f : Nat} (h1 : ¬ structSkip (slugOf url) = true)
    (h2 : slugOf url ∉ s.seenSlugs) (h3 : url ∉ s.processedUrls)
    (h4 : ¬ f + 1 ≥ m) :
    collectGo s (url :: rest) m f =
      (⟨slugOf url, url⟩ ::
        (collectGo { s with seenSlugs := setAdd s.seenSlugs (slugOf url) }
          rest m (f + 1)).1,
       (collectGo { s with seenSlugs := setAdd s.seenSlugs (slugOf url) }
          rest m (f + 1)).2) := by
  simp [collectGo, h1, h2, h3, h4]

/-- Combined behavioural description of the collector loop: only
`seenSlugs` changes, it grows by exactly the emitted slugs in order,
every emitted reference was fresh at entry, and the emitted slugs are
pairwise distinct. -/
theorem collectGo_spec (locs : List String) (s : ScraperState) (m f : Nat) :
    ((collectGo s locs m f).2.authorsMap = s.authorsMap ∧
     (collectGo s locs m f).2.authorArticles = s.authorArticles ∧
     (collectGo s locs m f).2.processedUrls = s.processedUrls ∧
     (collectGo s locs m f).2.processedProfiles = s.processedProfiles) ∧
    (collectGo s locs m f).2.seenSlugs =
      s.seenSlugs ++ (collectGo s locs m f).1.map ContentRef.slug ∧
    (∀ r ∈ (collectGo s locs m f).1,
      r.slug ∉ s.seenSlugs ∧ r.url ∉ s.processedUrls) ∧
    ((collectGo s locs m f).1.map ContentRef.slug).Nodup := by
  induction locs generalizing s f with
  | nil => simp [collectGo]
  | cons url rest ih =>
    by_cases h1 : structSkip (slugOf url) = true
    · rw [collectGo_cons_skip1 h1]
      exact ih s f
    · by_cases h2 : slugOf url ∈ s.seenSlugs
      · rw [collectGo_cons_skip2 h1 h2]
        exact ih s f
      · by_cases h3 : url ∈ s.processedUrls
        · rw [collectGo_cons_skip3 h1 h2 h3]
          exact ih s f
        · have hadd : setAdd s.seenSlugs (slugOf url) =
              s.seenSlugs ++ [slugOf url] := by
            simp [setAdd, h2]
          by_cases h4 : f + 1 ≥ m
          · rw [collectGo_cons_break h1 h2 h3 h4]
            refine ⟨⟨rfl, rfl, rfl, rfl⟩, ?_, ?_, ?_⟩
            · simpa using hadd
            · rintro r hr
              obtain rfl := List.mem_singleton.mp hr
              exact ⟨h2, h3⟩
            · simp
          · rw [collectGo_cons_push h1 h2 h3 h4]
            set s' : ScraperState :=
              { s with seenSlugs := setAdd s.seenSlugs (slugOf url) } with hs'
            obtain ⟨⟨e1, e2, e3, e4⟩, eseen, hfresh, hnd⟩ := ih s' (f + 1)
            have hs'seen : s'.seenSlugs = s.seenSlugs ++ [slugOf url] := by
              rw [hs']
              exact hadd
            refine ⟨⟨e1, e2, e3, e4⟩, ?_, ?_, ?_⟩
            · rw [eseen, hs'seen]
              simp
            · rintro r hr
              rcases List.mem_cons.mp hr with rfl | hr
              · exact ⟨h2, h3⟩
              · obtain ⟨hrs, hru⟩ := hfresh r hr
                rw [hs'seen] at hrs
                exact ⟨fun hm => hrs (List.mem_append_left _ hm), hru⟩
            · refine List.nodup_cons.mpr ⟨fun hm => ?_, hnd⟩
              simp only [List.mem_map] at hm
              obtain ⟨r, hr, hrs⟩ := hm
              obtain ⟨hfr, _⟩ := hfresh r hr
              rw [hs'seen] at hfr
              exact hfr (List.mem_append_right _ (by simp [hrs]))

theorem skipCond_mono {s t : ScraperState} {u : String}
    (hseen : ∀ x ∈ s.seenSlugs, x ∈ t.seenSlugs)
    (hproc : s.processedUrls = t.processedUrls) :
    skipCond s u → skipCond t u := by
  rintro (h | h | h)
  · exact Or.inl h
  · exact Or.inr (Or.inl (hseen _ h))
  · exact Or.inr (Or.inr (hproc ▸ h))

/-- If every URL of the page is already skippable, the collector loop
emits nothing and leaves the state untouched. -/
theorem collectGo_skip (locs : List String) (s : ScraperState) (m f : Nat)
    (h : ∀ url ∈ locs, skipCond s url) : collectGo s locs m f = ([], s) := by
  induction locs with
  | nil => rfl
  | cons url rest ih =>
    have hrest : ∀ u ∈ rest, skipCond s u :=
      fun u hu => h u (List.mem_cons_of_mem _ hu)
    have hurl := h url (List.mem_cons_self _ _)
    by_cases h1 : structSkip (slugOf url) = true
    · rw [collectGo_cons_skip1 h1]
      exact ih hrest
    · by_cases h2 : slugOf url ∈ s.seenSlugs
      · rw [collectGo_cons_skip2 h1 h2]
        exact ih hrest
      · have h3 : url ∈ s.processedUrls := by
          rcases hurl with hc | hc | hc
          · exact absurd hc h1
          · exact absurd hc h2
          · exact hc
        rw [collectGo_cons_skip3 h1 h2 h3]
        exact ih hrest

/-- If the loop did not hit the cap (fewer references than allowed by
the remaining budget), it scanned the entire page, so afterwards every
URL of the page is skippable. -/
theorem collectGo_complete (locs : List String) (s : ScraperState) (m f : Nat)
    (hlen : (collectGo s locs m f).1.length + f < m) :
    ∀ url ∈ locs, skipCond (collectGo s locs m f).2 url := by
  induction locs generalizing s f with
  | nil => simp
  | cons url rest ih =>
    have hmono : ∀ (s₀ : ScraperState) (m₀ f₀ : Nat) (u : String),
        skipCond s₀ u → skipCond (collectGo s₀ rest m₀ f₀).2 u := by
      intro s₀ m₀ f₀ u hu
      obtain ⟨⟨_, _, e3, _⟩, eseen, _, _⟩ := collectGo_spec rest s₀ m₀ f₀
      exact skipCond_mono
        (fun x hx => by rw [eseen]; exact List.mem_append_left _ hx)
        e3.symm hu
    by_cases h1 : structSkip (slugOf url) = true
    · rw [collectGo_cons_skip1 h1] at hlen ⊢
      rintro u hu
      rcases List.mem_cons.mp hu with rfl | hu
      · exact hmono s m f u (Or.inl h1)
      · exact ih s f hlen u hu
    · by_cases h2 : slugOf url ∈ s.seenSlugs
      · rw [collectGo_cons_skip2 h1 h2] at hlen ⊢
        rintro u hu
        rcases List.mem_cons.mp hu with rfl | hu
        · exact hmono s m f u (Or.inr (Or.inl h2))
        · exact ih s f hlen u hu
      · by_cases h3 : url ∈ s.processedUrls
        · rw [collectGo_cons_skip3 h1 h2 h3] at hlen ⊢
          rintro u hu
          rcases List.mem_cons.mp hu with rfl | hu
          · exact hmono s m f u (Or.inr (Or.inr h3))
          · exact ih s f hlen u hu
        · by_cases h4 : f + 1 ≥ m
          · rw [collectGo_cons_break h1 h2 h3 h4] at hlen
            simp only [List.length_singleton] at hlen
            omega
          · rw [collectGo_cons_push h1 h2 h3 h4] at hlen ⊢
            set s' : ScraperState :=
              { s with seenSlugs := setAdd s.seenSlugs (slugOf url) } with hs'
            simp only [List.length_cons] at hlen
            have hlen' : (collectGo s' rest m (f + 1)).1.length + (f + 1) < m := by
              omega
            rintro u hu
            rcases List.mem_cons.mp hu with rfl | hu
            · refine hmono s' m (f + 1) u (Or.inr (Or.inl ?_))
              exact self_mem_setAdd
            · exact ih s' (f + 1) hlen' u hu

/-! ## Claim C3 -/

/-- Claim C3 does not hold as stated: when the per-call cap
(`maxArticles`) fires, the collector `break`s before scanning the rest
of the page, so a second collection from the same page content against
the resulting state can return fresh references.  Concretely, with a
two-article page and `maxArticles = 1`, the first call returns the
first reference only and the second call returns the second reference,
not the empty list. -/
theorem C3_recollect_counterexample :
    (collectFromSitemap emptyState (some c3Locs) 1).1 =
      [{ slug := "a-1", url := "https://hackernoon.com/a-1" }] ∧
    (collectFromSitemap (collectFromSitemap emptyState (some c3Locs) 1).2
        (some c3Locs) 1).1 =
      [{ slug := "b-2", url := "https://hackernoon.com/b-2" }] ∧
    (collectFromSitemap (collectFromSitemap emptyState (some c3Locs) 1).2
        (some c3Locs) 1).1 ≠ [] := by
  refine ⟨by decide, by decide, by decide⟩

/-- Claim C3 (amended): the collector never returns a reference whose
slug is already seen or whose URL is already processed, every returned
slug is committed to `seenSlugs`, the returned slugs are pairwise
distinct (a slug occurring twice in one sitemap yields at most one
reference, and the scenario witness shows exactly one), and — provided
the first collection returned fewer references than `maxArticles`, i.e.
the cap did not cut the scan short — collecting a second time from the
same page content against the resulting state returns the empty list
and leaves the state unchanged. -/
theorem C3_collector_dedup (s : ScraperState) (locs : List String) (m : Nat) :
    (∀ r ∈ (collectFromSitemap s (some locs) m).1,
        r.slug ∉ s.seenSlugs ∧ r.url ∉ s.processedUrls) ∧
    (∀ r ∈ (collectFromSitemap s (some locs) m).1,
        r.slug ∈ (collectFromSitemap s (some locs) m).2.seenSlugs) ∧
    ((collectFromSitemap s (some locs) m).1.map ContentRef.slug).Nodup ∧
    ((collectFromSitemap s (some locs) m).1.length < m →
      collectFromSitemap (collectFromSitemap s (some locs) m).2 (some locs) m =
        ([], (collectFromSitemap s (some locs) m).2)) := by
  obtain ⟨⟨_, _, _, _⟩, eseen, hfresh, hnd⟩ := collectGo_spec locs s m 0
  refine ⟨fun r hr => hfresh r hr, ?_, hnd, ?_⟩
  · intro r hr
    show r.slug ∈ (collectGo s locs m 0).2.seenSlugs
    rw [eseen]
    exact List.mem_append_right _ (List.mem_map_of_mem _ hr)
  · intro hlen
    have hc : (collectGo s locs m 0).1.length + 0 < m := by simpa using hlen
    exact collectGo_skip locs _ m 0 (collectGo_complete locs s m 0 hc)

/-- Witness for C3 (amended): a page listing the same slug twice yields
exactly one reference, and since the cap is not reached the second
collection is empty. -/
theorem C3_collector_dedup_witness :
    (collectFromSitemap emptyState
        (some ["https://hackernoon.com/a-1", "https://hackernoon.com/a-1"])
        50).1 =
      [{ slug := "a-1", url := "https://hackernoon.com/a-1" }] ∧
    collectFromSitemap
        (collectFromSitemap emptyState
          (some ["https://hackernoon.com/a-1", "https://hackernoon.com/a-1"])
          50).2
        (some ["https://hackernoon.com/a-1", "https://hackernoon.com/a-1"])
        50 =
      ([], (collectFromSitemap emptyState
        (some ["https://hackernoon.com/a-1", "https://hackernoon.com/a-1"])
        50).2) := by
  constructor
  · decide
  · exact (C3_collector_dedup emptyState
      ["https://hackernoon.com/a-1", "https://hackernoon.com/a-1"] 50).2.2.2
      (by decide)

/-! ## Merger lemmas (for claims C4, C5, C6, C9) -/

theorem processArticleResult_get_none {s : ScraperState} {d : ArticleData}
    (h : mapGet s.authorsMap d.handle = none) :
    mapGet (processArticleResult s d).authorsMap d.handle =
      some (freshAuthorOf d) := by
  simp only [processArticleResult]
  rw [h]
  exact mapGet_mapSet_self _ _ _

theorem processArticleResult_get_some {s : ScraperState} {d : ArticleData}
    {a : Author} (h : mapGet s.authorsMap d.handle = some a) :
    mapGet (processArticleResult s d).authorsMap d.handle =
      some (mergeAuthorInto a d) := by
  simp only [processArticleResult]
  rw [h]
  exact mapGet_mapSet_self _ _ _

theorem processArticleResult_get_other {s : ScraperState} {d : ArticleData}
    {h' : String} (hne : h' ≠ d.handle) :
    mapGet (processArticleResult s d).authorsMap h' =
      mapGet s.authorsMap h' := by
  simp only [processArticleResult]
  split <;> exact mapGet_mapSet_ne _ _ hne

theorem mergeAuthorInto_keywords (a : Author) (d : ArticleData) :
    (mergeAuthorInto a d).keywords = d.matchedKeywords.foldl setAdd a.keywords := by
  simp only [mergeAuthorInto]
  split <;> rfl

theorem mergeAuthorInto_name (a : Author) (d : ArticleData) :
    (mergeAuthorInto a d).name = a.name := by
  simp only [mergeAuthorInto]
  split <;> rfl

theorem mergeAuthorInto_bio (a : Author) (d : ArticleData) :
    (mergeAuthorInto a d).bio = a.bio := by
  simp only [mergeAuthorInto]
  split <;> rfl

theorem mergeAuthorInto_handle (a : Author) (d : ArticleData) :
    (mergeAuthorInto a d).handle = a.handle := by
  simp only [mergeAuthorInto]
  split <;> rfl

theorem mergeAuthorInto_profileUrl (a : Author) (d : ArticleData) :
    (mergeAuthorInto a d).profileUrl = a.profileUrl := by
  simp only [mergeAuthorInto]
  split <;> rfl

theorem mergeAuthorInto_twitter (a : Author) (d : ArticleData) :
    (mergeAuthorInto a d).twitter = a.twitter := by
  simp only [mergeAuthorInto]
  split <;> rfl

theorem mergeAuthorInto_linkedin (a : Author) (d : ArticleData) :
    (mergeAuthorInto a d).linkedin = a.linkedin := by
  simp only [mergeAuthorInto]
  split <;> rfl

theorem mergeAuthorInto_github (a : Author) (d : ArticleData) :
    (mergeAuthorInto a d).github = a.github := by
  simp only [mergeAuthorInto]
  split <;> rfl

theorem mergeAuthorInto_website (a : Author) (d : ArticleData) :
    (mergeAuthorInto a d).website =
      if d.website ≠ "" ∧ a.website = "" then d.website else a.website := by
  simp only [mergeAuthorInto]
  split <;> rfl

/-! ## Claim C4 -/

/-- Claim C4: folding an extraction result into an existing author
unions the keyword sets (in particular it never removes a keyword), and
starting from an unseen handle, two observations yield exactly the
union of the two observed keyword sets — and since the union predicate
`k ∈ da ∨ k ∈ db` is symmetric, both observation orders produce the
same set. -/
theorem C4_keyword_union :
    (∀ (s : ScraperState) (d : ArticleData) (a : Author),
      mapGet s.authorsMap d.handle = some a →
      ∃ a', mapGet (processArticleResult s d).authorsMap d.handle = some a' ∧
        (∀ k ∈ a.keywords, k ∈ a'.keywords) ∧
        (∀ k, k ∈ a'.keywords ↔ k ∈ a.keywords ∨ k ∈ d.matchedKeywords)) ∧
    (∀ (s : ScraperState) (da db : ArticleData), da.handle = db.handle →
      mapGet s.authorsMap da.handle = none →
      ∀ a', mapGet (processArticleResult (processArticleResult s da) db).authorsMap
          da.handle = some a' →
        ∀ k, k ∈ a'.keywords ↔
          k ∈ da.matchedKeywords ∨ k ∈ db.matchedKeywords) := by
  constructor
  · intro s d a h
    refine ⟨mergeAuthorInto a d, processArticleResult_get_some h, ?_, ?_⟩
    · intro k hk
      rw [mergeAuthorInto_keywords]
      exact mem_foldl_setAdd.mpr (Or.inl hk)
    · intro k
      rw [mergeAuthorInto_keywords, mem_foldl_setAdd]
  · intro s da db hh h a' ha' k
    have h1 : mapGet (processArticleResult s da).authorsMap da.handle =
        some (freshAuthorOf da) := processArticleResult_get_none h
    rw [hh] at h1
    have h2 := processArticleResult_get_some (s := processArticleResult s da) h1
    rw [← hh] at h2
    rw [ha'] at h2
    obtain rfl := (Option.some.inj h2).symm
    rw [mergeAuthorInto_keywords, mem_foldl_setAdd]
    simp only [freshAuthorOf, mem_dedupFirst]

/-- Witness for C4: the handle observed with {"indie hacker"} then with
{"maker"} holds both keywords afterwards. -/
theorem C4_keyword_union_witness :
    ∃ a', mapGet (processArticleResult (processArticleResult emptyState c4d1)
        c4d2).authorsMap "jdoe" = some a' ∧
      "indie hacker" ∈ a'.keywords ∧ "maker" ∈ a'.keywords := by
  cases hm : mapGet (processArticleResult (processArticleResult emptyState c4d1)
      c4d2).authorsMap "jdoe" with
  | none => exact absurd hm (by decide)
  | some a' =>
    have hiff := C4_keyword_union.2 emptyState c4d1 c4d2 rfl (by decide) a' hm
    refine ⟨a', rfl, ?_, ?_⟩
    · exact (hiff "indie hacker").mpr (Or.inl (by decide))
    · exact (hiff "maker").mpr (Or.inr (by decide))

/-! ## Claim C5 -/

/-- Claim C5 is false as stated: the merge branch of `scrape` (lines
304-319) never touches the stored display name.  A repeat observation
presenting the non-empty, strictly longer name "Jane Doe" over the
stored "jane" leaves the stored name "jane", where the claim demands it
become "Jane Doe". -/
theorem C5_merge_name_counterexample :
    c5Data.name ≠ "" ∧ c5Author.name.length < c5Data.name.length ∧
    (mapGet (processArticleResult c5State c5Data).authorsMap "jdoe").map
      Author.name = some "jane" := by
  refine ⟨by decide, by decide, by decide⟩

/-- Claim C5 (amended): on a repeat observation the merger leaves the
stored display name unchanged; the "non-empty and strictly longer" name
upgrade is applied only by the profile-enrichment assignment, using the
profile page's cleaned display name. -/
theorem C5_merge_name_policy :
    (∀ (s : ScraperState) (d : ArticleData) (a : Author),
      mapGet s.authorsMap d.handle = some a →
      ∃ a', mapGet (processArticleResult s d).authorsMap d.handle = some a' ∧
        a'.name = a.name) ∧
    (∀ (a : Author) (r : SocialResult),
      (applySocial a r).name =
        if r.name ≠ "" ∧ a.name.length < r.name.length then r.name
        else a.name) := by
  constructor
  · intro s d a h
    exact ⟨mergeAuthorInto a d, processArticleResult_get_some h,
      mergeAuthorInto_name a d⟩
  · intro a r
    simp only [applySocial]
    split_ifs <;> rfl

/-- Witness for C5 (amended): the concrete counterexample state, viewed
through the amended theorem — the stored name survives the merge. -/
theorem C5_merge_name_policy_witness :
    ∃ a', mapGet (processArticleResult c5State c5Data).authorsMap "jdoe" =
        some a' ∧ a'.name = "jane" := by
  obtain ⟨a', hget, hname⟩ :=
    C5_merge_name_policy.1 c5State c5Data c5Author (by decide)
  exact ⟨a', hget, hname⟩

/-! ## Enrichment lemmas and the social-field invariant (claim C6) -/

theorem applySocial_handle (a : Author) (r : SocialResult) :
    (applySocial a r).handle = a.handle := by
  simp only [applySocial]
  split_ifs <;> rfl

theorem applySocial_profileUrl (a : Author) (r : SocialResult) :
    (applySocial a r).profileUrl = a.profileUrl := by
  simp only [applySocial]
  split_ifs <;> rfl

theorem applySocial_bio (a : Author) (r : SocialResult) :
    (applySocial a r).bio = a.bio := by
  simp only [applySocial]
  split_ifs <;> rfl

theorem applySocial_twitter (a : Author) (r : SocialResult) :
    (applySocial a r).twitter = some (r.twitter.getD "") := by
  simp only [applySocial]
  split_ifs <;> rfl

theorem applySocial_linkedin (a : Author) (r : SocialResult) :
    (applySocial a r).linkedin = some (r.linkedin.getD "") := by
  simp only [applySocial]
  split_ifs <;> rfl

theorem applySocial_github (a : Author) (r : SocialResult) :
    (applySocial a r).github = some (r.github.getD "") := by
  simp only [applySocial]
  split_ifs <;> rfl

theorem applySocial_website (a : Author) (r : SocialResult) :
    (applySocial a r).website =
      if r.website.getD "" ≠ "" ∧ a.website = "" then r.website.getD ""
      else a.website := by
  simp only [applySocial]
  split_ifs <;> rfl

theorem preservesAuthor_refl (a : Author) : PreservesAuthor a a :=
  ⟨fun _ => rfl, fun _ => rfl, fun _ h _ => h, fun _ h _ => h, fun _ h _ => h,
   rfl, rfl⟩

theorem preservesAuthor_trans {a b c : Author} (h1 : PreservesAuthor a b)
    (h2 : PreservesAuthor b c) : PreservesAuthor a c := by
  obtain ⟨b1, w1, t1, l1, g1, hh1, hp1⟩ := h1
  obtain ⟨b2, w2, t2, l2, g2, hh2, hp2⟩ := h2
  refine ⟨?_, ?_, ?_, ?_, ?_, hh2.trans hh1, hp2.trans hp1⟩
  · intro hb
    rw [b2 (by rw [b1 hb]; exact hb), b1 hb]
  · intro hw
    rw [w2 (by rw [w1 hw]; exact hw), w1 hw]
  · intro t ht htne
    exact t2 t (t1 t ht htne) htne
  · intro t ht htne
    exact l2 t (l1 t ht htne) htne
  · intro t ht htne
    exact g2 t (g1 t ht htne) htne

theorem processArticleResult_authorsMap (s : ScraperState) (d : ArticleData) :
    (processArticleResult s d).authorsMap =
      mapSet s.authorsMap d.handle
        ((mapGet s.authorsMap d.handle).elim (freshAuthorOf d)
          (fun a => mergeAuthorInto a d)) := by
  simp only [processArticleResult]
  split <;> rename_i heq <;> rw [heq] <;> rfl

theorem processArticleResult_processedProfiles (s : ScraperState)
    (d : ArticleData) :
    (processArticleResult s d).processedProfiles = s.processedProfiles := by
  simp only [processArticleResult]
  split <;> rfl

theorem processArticleResult_inv {s : ScraperState} {d : ArticleData}
    (h : SocialInv s) : SocialInv (processArticleResult s d) := by
  intro p hp
  rw [processArticleResult_processedProfiles]
  rw [processArticleResult_authorsMap] at hp
  rcases mem_mapSet hp with rfl | hp
  · cases heq : mapGet s.authorsMap d.handle with
    | none =>
      exact Or.inl ⟨rfl, rfl, rfl⟩
    | some a =>
      show ((mergeAuthorInto a d).twitter = none ∧
          (mergeAuthorInto a d).linkedin = none ∧
          (mergeAuthorInto a d).github = none) ∨
        (mergeAuthorInto a d).profileUrl ∈ s.processedProfiles
      rcases h _ (mapGet_mem heq) with h1 | h2
      · left
        rw [mergeAuthorInto_twitter, mergeAuthorInto_linkedin,
          mergeAuthorInto_github]
        exact h1
      · right
        rw [mergeAuthorInto_profileUrl]
        exact h2
  · exact h p hp

theorem processArticleResult_pres {s : ScraperState} {d : ArticleData}
    (hh : String) (a : Author) (ha : mapGet s.authorsMap hh = some a) :
    ∃ a', mapGet (processArticleResult s d).authorsMap hh = some a' ∧
      PreservesAuthor a a' := by
  by_cases he : hh = d.handle
  · subst he
    refine ⟨mergeAuthorInto a d, processArticleResult_get_some ha, ?_⟩
    refine ⟨fun _ => mergeAuthorInto_bio a d, ?_,
      fun t ht _ => by rw [mergeAuthorInto_twitter]; exact ht,
      fun t ht _ => by rw [mergeAuthorInto_linkedin]; exact ht,
      fun t ht _ => by rw [mergeAuthorInto_github]; exact ht,
      mergeAuthorInto_handle a d, mergeAuthorInto_profileUrl a d⟩
    intro hw
    rw [mergeAuthorInto_website]
    simp [hw]
  · rw [processArticleResult_get_other he, ha]
    exact ⟨a, rfl, preservesAuthor_refl a⟩

theorem enrichOne_no_author {s : ScraperState} {h : String}
    {env : String → Option SocialResult} (hm : mapGet s.authorsMap h = none) :
    enrichOne s h env = s := by
  simp [enrichOne, hm]

theorem enrichOne_already_processed {s : ScraperState} {h : String}
    {env : String → Option SocialResult} {a : Author}
    (hm : mapGet s.authorsMap h = some a)
    (hp : a.profileUrl ∈ s.processedProfiles) : enrichOne s h env = s := by
  simp [enrichOne, getProfileSocial, hm, hp]

theorem enrichOne_fetch_fail {s : ScraperState} {h : String}
    {env : String → Option SocialResult} {a : Author}
    (hm : mapGet s.authorsMap h = some a)
    (hp : a.profileUrl ∉ s.processedProfiles)
    (he : env a.profileUrl = none) :
    enrichOne s h env =
      { s with processedProfiles := setAdd s.processedProfiles a.profileUrl } := by
  simp [enrichOne, getProfileSocial, hm, hp, he]

theorem enrichOne_assign {s : ScraperState} {h : String}
    {env : String → Option SocialResult} {a : Author} {r : SocialResult}
    (hm : mapGet s.authorsMap h = some a)
    (hp : a.profileUrl ∉ s.processedProfiles)
    (he : env a.profileUrl = some r) :
    enrichOne s h env =
      { s with
        authorsMap := mapSet s.authorsMap h (applySocial a r)
        processedProfiles := setAdd s.processedProfiles a.profileUrl } := by
  simp [enrichOne, getProfileSocial, hm, hp, he]

theorem enrichOne_inv {s : ScraperState} {h : String}
    {env : String → Option SocialResult} (hInv : SocialInv s) :
    SocialInv (enrichOne s h env) := by
  cases hm : mapGet s.authorsMap h with
  | none =>
    rw [enrichOne_no_author hm]
    exact hInv
  | some a =>
    by_cases hp : a.profileUrl ∈ s.processedProfiles
    · rw [enrichOne_already_processed hm hp]
      exact hInv
    · cases henv : env a.profileUrl with
      | none =>
        rw [enrichOne_fetch_fail hm hp henv]
        intro p hpm
        rcases hInv p hpm with h1 | h2
        · exact Or.inl h1
        · exact Or.inr (mem_setAdd.mpr (Or.inl h2))
      | some r =>
        rw [enrichOne_assign hm hp henv]
        intro p hpm
        rcases mem_mapSet hpm with rfl | hpm
        · right
          show (applySocial a r).profileUrl ∈ setAdd s.processedProfiles a.profileUrl
          rw [applySocial_profileUrl]
          exact self_mem_setAdd
        · rcases hInv p hpm with h1 | h2
          · exact Or.inl h1
          · exact Or.inr (mem_setAdd.mpr (Or.inl h2))

theorem enrichOne_pres {s : ScraperState} {h' : String}
    {env : String → Option SocialResult} (hInv : SocialInv s) (hh : String)
    (a : Author) (ha : mapGet s.authorsMap hh = some a) :
    ∃ a', mapGet (enrichOne s h' env).authorsMap hh = some a' ∧
      PreservesAuthor a a' := by
  cases hm : mapGet s.authorsMap h' with
  | none =>
    rw [enrichOne_no_author hm]
    exact ⟨a, ha, preservesAuthor_refl a⟩
  | some b =>
    by_cases hp : b.profileUrl ∈ s.processedProfiles
    · rw [enrichOne_already_processed hm hp]
      exact ⟨a, ha, preservesAuthor_refl a⟩
    · cases henv : env b.profileUrl with
      | none =>
        rw [enrichOne_fetch_fail hm hp henv]
        exact ⟨a, ha, preservesAuthor_refl a⟩
      | some r =>
        rw [enrichOne_assign hm hp henv]
        by_cases he : hh = h'
        · subst he
          obtain rfl : a = b := Option.some.inj (ha.symm.trans hm)
          refine ⟨applySocial a r, mapGet_mapSet_self _ _ _, ?_⟩
          have hnone : a.twitter = none ∧ a.linkedin = none ∧
              a.github = none := by
            rcases hInv _ (mapGet_mem ha) with h1 | h2
            · exact h1
            · exact absurd h2 hp
          refine ⟨fun _ => applySocial_bio a r, ?_, ?_, ?_, ?_,
            applySocial_handle a r, applySocial_profileUrl a r⟩
          · intro hw
            rw [applySocial_website]
            simp [hw]
          · intro t ht _
            rw [hnone.1] at ht
            exact absurd ht (by simp)
          · intro t ht _
            rw [hnone.2.1] at ht
            exact absurd ht (by simp)
          · intro t ht _
            rw [hnone.2.2] at ht
            exact absurd ht (by simp)
        · refine ⟨a, ?_, preservesAuthor_refl a⟩
          show mapGet (mapSet s.authorsMap h' (applySocial b r)) hh = some a
          rw [mapGet_mapSet_ne _ _ he]
          exact ha

theorem enrichFold_inv (hs : List String)
    (env : String → Option SocialResult) :
    ∀ s : ScraperState, SocialInv s →
      SocialInv (hs.foldl (fun st h => enrichOne st h env) s) := by
  induction hs with
  | nil => exact fun s h => h
  | cons h rest ih =>
    intro s hInv
    exact ih _ (enrichOne_inv hInv)

theorem enrichFold_pres (hs : List String)
    (env : String → Option SocialResult) :
    ∀ s : ScraperState, SocialInv s → ∀ (hh : String) (a : Author),
      mapGet s.authorsMap hh = some a →
      ∃ a', mapGet ((hs.foldl (fun st h => enrichOne st h env) s)).authorsMap
          hh = some a' ∧ PreservesAuthor a a' := by
  induction hs with
  | nil => exact fun s _ hh a ha => ⟨a, ha, preservesAuthor_refl a⟩
  | cons h rest ih =>
    intro s hInv hh a ha
    obtain ⟨b, hb, hab⟩ := enrichOne_pres hInv hh a ha
    obtain ⟨c, hc, hbc⟩ := ih _ (enrichOne_inv hInv) hh b hb
    exact ⟨c, hc, preservesAuthor_trans hab hbc⟩

theorem enrichPhase_inv {s : ScraperState}
    {env : String → Option SocialResult} (hInv : SocialInv s) :
    SocialInv (enrichPhase s env) :=
  enrichFold_inv _ env s hInv

theorem enrichPhase_pres {s : ScraperState}
    {env : String → Option SocialResult} (hInv : SocialInv s) (hh : String)
    (a : Author) (ha : mapGet s.authorsMap hh = some a) :
    ∃ a', mapGet (enrichPhase s env).authorsMap hh = some a' ∧
      PreservesAuthor a a' :=
  enrichFold_pres _ env s hInv hh a ha

theorem applyOp_inv {s : ScraperState} {op : Op} (hInv : SocialInv s) :
    SocialInv (applyOp s op) := by
  cases op with
  | extract d => exact processArticleResult_inv hInv
  | enrich env => exact enrichPhase_inv hInv

theorem applyOp_pres {s : ScraperState} {op : Op} (hInv : SocialInv s)
    (hh : String) (a : Author) (ha : mapGet s.authorsMap hh = some a) :
    ∃ a', mapGet (applyOp s op).authorsMap hh = some a' ∧
      PreservesAuthor a a' := by
  cases op with
  | extract d => exact processArticleResult_pres hh a ha
  | enrich env => exact enrichPhase_pres hInv hh a ha

theorem runOps_pres (ops : List Op) :
    ∀ s : ScraperState, SocialInv s → ∀ (hh : String) (a : Author),
      mapGet s.authorsMap hh = some a →
      ∃ a', mapGet (runOps s ops).authorsMap hh = some a' ∧
        PreservesAuthor a a' := by
  induction ops with
  | nil => exact fun s _ hh a ha => ⟨a, ha, preservesAuthor_refl a⟩
  | cons op rest ih =>
    intro s hInv hh a ha
    obtain ⟨b, hb, hab⟩ := applyOp_pres hInv hh a ha
    obtain ⟨c, hc, hbc⟩ := ih _ (applyOp_inv hInv) hh b hb
    exact ⟨c, hc, preservesAuthor_trans hab hbc⟩

/-! ## Claim C6 -/

/-- Claim C6 is false in its "first non-empty value observed wins"
part for `bio`: an author created from an observation with an empty bio
keeps that empty bio forever — the merge branch never reads the later
observation's bio — so the first NON-EMPTY bio observed ("B" here) does
not win. -/
theorem C6_bio_counterexample :
    c6d2.bio = "B" ∧ c6d2.bio ≠ "" ∧
    (mapGet (processArticleResult (processArticleResult emptyState c6d1)
        c6d2).authorsMap "jdoe").map Author.bio = some "" := by
  refine ⟨by decide, by decide, by decide⟩

/-- Claim C6 (amended): under the reachable-state invariant
`SocialInv`, across every sequence of merger and enricher operations a
populated optional field (bio, website, twitter, linkedin, github) is
never overwritten — neither with an empty value nor with a different
one.  First-non-empty-wins holds for `website` (the merger fills an
empty website from the observation); `bio` however is fixed at author
creation: a later observation's non-empty bio never fills an empty
stored bio.  The invariant itself holds initially and is preserved by
every operation. -/
theorem C6_field_stability :
    (∀ (s : ScraperState) (ops : List Op), SocialInv s →
      ∀ (hh : String) (a : Author), mapGet s.authorsMap hh = some a →
      ∃ a', mapGet (runOps s ops).authorsMap hh = some a' ∧
        (a.bio ≠ "" → a'.bio = a.bio) ∧
        (a.website ≠ "" → a'.website = a.website) ∧
        (∀ t, a.twitter = some t → t ≠ "" → a'.twitter = some t) ∧
        (∀ t, a.linkedin = some t → t ≠ "" → a'.linkedin = some t) ∧
        (∀ t, a.github = some t → t ≠ "" → a'.github = some t)) ∧
    (∀ (s : ScraperState) (d : ArticleData) (a : Author),
      mapGet s.authorsMap d.handle = some a → a.website = "" →
      d.website ≠ "" →
      ∃ a', mapGet (processArticleResult s d).authorsMap d.handle = some a' ∧
        a'.website = d.website) ∧
    (∀ (s : ScraperState) (d : ArticleData) (a : Author),
      mapGet s.authorsMap d.handle = some a →
      ∃ a', mapGet (processArticleResult s d).authorsMap d.handle = some a' ∧
        a'.bio = a.bio) ∧
    SocialInv emptyState ∧
    (∀ (s : ScraperState) (ops : List Op), SocialInv s →
      SocialInv (runOps s ops)) := by
  refine ⟨?_, ?_, ?_, ?_, ?_⟩
  · intro s ops hInv hh a ha
    obtain ⟨a', ha', hpres⟩ := runOps_pres ops s hInv hh a ha
    obtain ⟨b1, w1, t1, l1, g1, _, _⟩ := hpres
    exact ⟨a', ha', b1, w1, t1, l1, g1⟩
  · intro s d a ha hw hd
    refine ⟨mergeAuthorInto a d, processArticleResult_get_some ha, ?_⟩
    rw [mergeAuthorInto_website]
    simp [hw, hd]
  · intro s d a ha
    exact ⟨mergeAuthorInto a d, processArticleResult_get_some ha,
      mergeAuthorInto_bio a d⟩
  · intro p hp
    simp [emptyState] at hp
  · intro s ops hInv
    induction ops generalizing s with
    | nil => exact hInv
    | cons op rest ih => exact ih _ (applyOp_inv hInv)

/-- Witness for C6 (amended): a stored bio "X" and website "W" survive
a merge followed by an enrichment phase. -/
theorem C6_field_stability_witness :
    ∃ a', mapGet (runOps c6State c6Ops).authorsMap "jdoe" = some a' ∧
      a'.bio = "X" ∧ a'.website = "W" := by
  obtain ⟨a', ha', hbio, hweb, _, _, _⟩ :=
    C6_field_stability.1 c6State c6Ops
      (by
        intro p hp
        obtain rfl := List.mem_singleton.mp hp
        exact Or.inl ⟨rfl, rfl, rfl⟩)
      "jdoe" c6Author (by decide)
  exact ⟨a', ha', hbio (by decide), hweb (by decide)⟩

/-! ## Extractor result facts (claims C9, C10) -/

theorem truthy_getD_ne {o : Option String} (h : truthy o = true) :
    o.getD "" ≠ "" := by
  cases o with
  | none => simp [truthy] at h
  | some v => simpa [truthy] using h

/-- Any non-null extraction result has a non-empty handle (the code
returns `null` on a falsy `profile.handle`) and duplicate-free matched
keywords (the `[...new Set(...)]` on line 198). -/
theorem getArticleData_some_facts {s : ScraperState} {url : String}
    {f : FetchOutcome} {d : ArticleData} {s' : ScraperState}
    (h : getArticleData s url f = (some d, s')) :
    d.handle ≠ "" ∧ d.matchedKeywords.Nodup := by
  by_cases hu : url ∈ s.processedUrls
  · simp [getArticleData, hu] at h
  · cases f with
    | fetchFail => simp [getArticleData, hu] at h
    | noNextData => simp [getArticleData, hu] at h
    | gotData pd =>
      simp only [getArticleData, if_neg hu] at h
      split at h
      · simp at h
      · split at h
        · simp at h
        · rename_i hmk hhd
          rw [not_not] at hhd
          rw [Prod.mk.injEq] at h
          obtain ⟨h1, _⟩ := h
          obtain rfl := (Option.some.inj h1)
          exact ⟨truthy_getD_ne hhd, nodup_dedupFirst _⟩

/-! ## Claim C9 -/

theorem enrichOne_handleInv {s : ScraperState} {h : String}
    {env : String → Option SocialResult} (hi : HandleInv s) :
    HandleInv (enrichOne s h env) := by
  cases hm : mapGet s.authorsMap h with
  | none =>
    rw [enrichOne_no_author hm]
    exact hi
  | some a =>
    by_cases hp : a.profileUrl ∈ s.processedProfiles
    · rw [enrichOne_already_processed hm hp]
      exact hi
    · cases henv : env a.profileUrl with
      | none =>
        rw [enrichOne_fetch_fail hm hp henv]
        exact hi
      | some r =>
        rw [enrichOne_assign hm hp henv]
        intro p hpm
        rcases mem_mapSet hpm with rfl | hpm
        · show (applySocial a r).handle ≠ ""
          rw [applySocial_handle]
          exact hi _ (mapGet_mem hm)
        · exact hi p hpm

theorem enrichFold_handleInv (hs : List String)
    (env : String → Option SocialResult) :
    ∀ s : ScraperState, HandleInv s →
      HandleInv (hs.foldl (fun st h => enrichOne st h env) s) := by
  induction hs with
  | nil => exact fun s h => h
  | cons h rest ih => exact fun s hi => ih _ (enrichOne_handleInv hi)

/-- Claim C9: every finalized author name is non-empty — it is the
stored (cleaned) display name when that has length at least 2, else the
handle; the handle is non-empty for every author the engine can create
because `getArticleData` returns `null` on an absent profile handle,
and both the merger and the enricher preserve non-empty handles. -/
theorem C9_final_name_nonempty :
    (∀ (s : ScraperState) (url : String) (f : FetchOutcome) (d : ArticleData)
      (s' : ScraperState),
      getArticleData s url f = (some d, s') → d.handle ≠ "") ∧
    (∀ (s : ScraperState) (d : ArticleData), HandleInv s → d.handle ≠ "" →
      HandleInv (processArticleResult s d)) ∧
    (∀ (s : ScraperState) (env : String → Option SocialResult), HandleInv s →
      HandleInv (enrichPhase s env)) ∧
    (∀ (s : ScraperState) (n l m t : Nat), HandleInv s →
      ∀ fa ∈ (finalizeOutput s n l m t).authors, fa.name ≠ "") ∧
    (∀ (s : ScraperState) (a : Author),
      (finalizeAuthor s a).name =
        if a.name ≠ "" ∧ 2 ≤ a.name.length then a.name else a.handle) := by
  refine ⟨?_, ?_, ?_, ?_, fun s a => rfl⟩
  · intro s url f d s' h
    exact (getArticleData_some_facts h).1
  · intro s d hi hd p hp
    rw [processArticleResult_authorsMap] at hp
    rcases mem_mapSet hp with rfl | hp
    · cases heq : mapGet s.authorsMap d.handle with
      | none => exact hd
      | some a =>
        show (mergeAuthorInto a d).handle ≠ ""
        rw [mergeAuthorInto_handle]
        exact hi _ (mapGet_mem heq)
    · exact hi p hp
  · intro s env hi
    exact enrichFold_handleInv _ env s hi
  · intro s n l m t hi fa hfa
    simp only [finalizeOutput, List.mem_map] at hfa
    obtain ⟨a, ⟨p, hp, rfl⟩, rfl⟩ := hfa
    show (if p.2.name ≠ "" ∧ 2 ≤ p.2.name.length then p.2.name
      else p.2.handle) ≠ ""
    split_ifs with hc
    · exact hc.1
    · exact hi p hp

/-- Witness for C9: the finalized name of a concrete stored author is
non-empty. -/
theorem C9_final_name_nonempty_witness :
    (finalizeAuthor c2State sampleAuthor).name ≠ "" := by
  refine C9_final_name_nonempty.2.2.2.1 c2State 0 0 0 0 ?_ _ ?_
  · intro p hp
    obtain rfl := List.mem_singleton.mp hp
    decide
  · decide

/-! ## Claim C10 -/

/-- Claim C10: a non-null extraction result's matchedKeywords list
never contains duplicates but can be empty: `matchesKeywords` also
accepts a tag keyword with hyphens rewritten to spaces as a substring
of title/excerpt/tags, while the matchedKeywords computation records
only exact tag-slug membership and search-keyword substrings of
title/excerpt.  A page titled "startup lessons learned" (matching only
the rewritten tag keyword "startup-lessons") passes the relevance test,
produces a non-null result, and yields matchedKeywords = [] — no search
keyword occurs in its title/excerpt. -/
theorem C10_matched_keywords :
    (∀ (s : ScraperState) (url : String) (f : FetchOutcome) (d : ArticleData)
      (s' : ScraperState),
      getArticleData s url f = (some d, s') → d.matchedKeywords.Nodup) ∧
    (getArticleData emptyState c10Url (.gotData c10Page)).1 = some c10Result ∧
    c10Result.matchedKeywords = [] ∧
    matchesKeywords "startup lessons learned" "" [] = true ∧
    SEARCH_KEYWORDS.all (fun kw =>
      !(strIncludes (lowerStr ("startup lessons learned" ++ " " ++ ""))
        (lowerStr kw))) = true := by
  refine ⟨?_, by decide, by decide, by decide, by decide⟩
  intro s url f d s' h
  exact (getArticleData_some_facts h).2

/-- Witness for C10: the duplicate-freedom part applied at the concrete
keywordless extraction. -/
theorem C10_matched_keywords_witness : c10Result.matchedKeywords.Nodup :=
  C10_matched_keywords.1 emptyState c10Url (.gotData c10Page) c10Result
    { emptyState with processedUrls := [c10Url] } (by decide)

end HN
